import Mathlib

/-!
Verification development for the teamhephy/router control plane.

The Go sources are shallowly embedded:
* the domain model types of `model/types.go` become Lean structures
  (only the fields that the verified properties touch are carried;
  annotation-bound scalar settings that no property reads are omitted),
* the configuration synthesizer of `model/model.go` (`build`,
  `buildAppConfig`, `linkLocations`, `addRootLocations`,
  `buildCertificate`, `buildDHParam`) becomes pure functions over an
  explicit cluster facade, with Kubernetes fetches modelled as oracle
  functions inside a `Cluster` record and fallible calls returning
  `Except`,
* the certificate materializer of `nginx/config.go` (`WriteCerts`,
  `writeCert`, `WriteDHParam`) acts on a directory modelled as a partial
  map from file name to file entry,
* the reconciliation loop body of `main.go` becomes a step function
  `tick` from the last-applied snapshot and the tick's environment
  (build result and per-step write/reload outcomes) to the new
  last-applied snapshot and the list of apply steps attempted.

The annotation binder (`utils/modeler`, not part of the sources here)
only overlays string-keyed annotation values onto typed fields; the
embedding therefore takes each service's already-bound fields as input
(`BoundFields`), which quantifies over every possible binder outcome.
-/

namespace RouterModel

/-- `model.Certificate`: a cert/key pair identified by usage context. -/
structure Certificate where
  cert : String
  key : String
deriving DecidableEq, Repr

/-- `model.Location`: one URL path served by a back end.  The Go struct
holds a pointer to the owning `AppConfig`; the embedding records that
owner by its app name. -/
structure Location where
  app : String
  path : String
deriving DecidableEq, Repr

/-- `model.AppConfig`, restricted to the fields the verified properties
read.  `certificates` models the Go `map[string]*Certificate`: presence
of a key with a `none` value is a nil certificate binding, which is
distinct from the key being absent. -/
structure AppConfig where
  name : String
  domains : List String
  certMappings : List (String × String)
  certificates : List (String × Option Certificate)
  available : Bool
  proxyDomain : String
  proxyLocations : List String
  locations : List Location
  serviceIP : String
deriving DecidableEq, Repr

/-- `model.SSLConfig`, restricted to `DHParam` (the one field the
materializer and the verified properties read). -/
structure SSLConfig where
  dhParam : String
deriving DecidableEq, Repr

/-- `model.RouterConfig`, restricted to the fields the verified
properties read. -/
structure RouterConfig where
  sslConfig : SSLConfig
  appConfigs : List AppConfig
  platformCertificate : Option Certificate
deriving DecidableEq, Repr

/-- A Kubernetes secret's `Data` byte map. -/
structure Secret where
  data : List (String × String)
deriving DecidableEq, Repr

/-- Outcome of `getSecret` in `model/model.go`: the Go helper maps a 404
to `(nil, nil)` (`notFound`), any other error to `(nil, err)`
(`fetchFailure`), and success to the secret. -/
inductive SecretResult where
  | found (s : Secret)
  | notFound
  | fetchFailure
deriving DecidableEq, Repr

/-- One subset of a Kubernetes `Endpoints` object; `addresses` are the
ready addresses, `notReadyAddresses` the rest. -/
structure EndpointSubset where
  addresses : List String
  notReadyAddresses : List String
deriving DecidableEq, Repr

/-- A Kubernetes `Endpoints` object. -/
structure Endpoints where
  subsets : List EndpointSubset
deriving DecidableEq, Repr

/-- The outcome of the annotation binder on one routable service: the
fields of `AppConfig` that `modeler.MapToModel` can set and that the
verified properties read. -/
structure BoundFields where
  domains : List String
  certMappings : List (String × String)
  proxyDomain : String
  proxyLocations : List String
deriving DecidableEq, Repr

/-- One routable service as the synthesizer consumes it.  `appLabel` is
`service.Labels["app"]` (Go map lookup yields `""` when absent) and
`bound` is the binder's outcome on its annotations. -/
structure Service where
  name : String
  ns : String
  appLabel : String
  clusterIP : String
  bound : BoundFields
deriving DecidableEq, Repr

/-- The cluster facade: the point-in-time lookups `buildAppConfig`
issues.  `getSecret name ns` and `getEndpoints name ns` are oracles for
the Kubernetes API results during one tick. -/
structure Cluster where
  getSecret : String → String → SecretResult
  getEndpoints : String → String → Except Unit Endpoints

/-- Errors that abort one synthesis tick: a cluster fetch failure, or
the dangling cross-app reference error of `linkLocations` (which names
the missing domain). -/
inductive BuildError where
  | fetchError
  | configError (domain : String)
deriving DecidableEq, Repr

/-- Go map read `m[k]`: first binding for `k`, if any. -/
def alistLookup (k : String) : List (String × α) → Option α
  | [] => none
  | (k', v) :: rest => if k' = k then some v else alistLookup k rest

/-- Go map write `m[k] = v`: replace the binding in place or append. -/
def mapInsert (k : String) (v : α) : List (String × α) → List (String × α)
  | [] => [(k, v)]
  | (k', v') :: rest => if k' = k then (k, v) :: rest else (k', v') :: mapInsert k v rest

/-- Boolean list membership for strings. -/
def memStr (d : String) : List String → Bool
  | [] => false
  | x :: rest => if x = d then true else memStr d rest

/-- `model.buildCertificate`: extract the `tls.crt`/`tls.key` entries;
a missing entry yields a nil certificate (the Go function logs a
warning and returns `(nil, nil)`). -/
def buildCertificate (s : Secret) : Option Certificate :=
  match alistLookup "tls.crt" s.data with
  | none => none
  | some c =>
    match alistLookup "tls.key" s.data with
    | none => none
    | some k => some { cert := c, key := k }

/-- `model.buildDHParam`: the `dhparam` entry, or `""` when absent. -/
def buildDHParam (s : Secret) : String :=
  (alistLookup "dhparam" s.data).getD ""

/-- `model.buildRouterConfig`, restricted to the modelled fields: the
platform certificate comes from the platform cert secret when that
secret exists, and `SSLConfig.DHParam` from the dhparam secret.
Annotation binding on the router deployment only sets scalar settings
outside the modelled fields. -/
def buildRouterConfig (platformCertSecret dhParamSecret : Option Secret) : RouterConfig :=
  { sslConfig := { dhParam := (dhParamSecret.map buildDHParam).getD "" }
    appConfigs := []
    platformCertificate := platformCertSecret.bind buildCertificate }

/-- `strings.Contains(domain, ".")`: whether a domain is an FQDN.
(Defined over the character list so that it evaluates by reduction.) -/
def containsDot (d : String) : Bool :=
  d.data.any fun ch => ch = '.'

/-- The per-domain certificate resolution loop of `model.buildAppConfig`:
an FQDN domain (one containing a dot) with a certificate mapping fetches
the secret `"<alias>-cert"` in the service's namespace — a fetch failure
aborts, a missing secret leaves the domain unbound, a found secret binds
`buildCertificate` (possibly nil); a bare domain binds the platform
certificate (possibly nil). -/
def resolveCerts (cl : Cluster) (ns : String) (mappings : List (String × String))
    (platform : Option Certificate) :
    List String → List (String × Option Certificate) →
    Except BuildError (List (String × Option Certificate))
  | [], acc => .ok acc
  | d :: rest, acc =>
    if containsDot d then
      match alistLookup d mappings with
      | some mp =>
        match cl.getSecret (mp ++ "-cert") ns with
        | .fetchFailure => .error .fetchError
        | .notFound => resolveCerts cl ns mappings platform rest acc
        | .found s => resolveCerts cl ns mappings platform rest (mapInsert d (buildCertificate s) acc)
      | none => resolveCerts cl ns mappings platform rest acc
    else
      resolveCerts cl ns mappings platform rest (mapInsert d platform acc)

/-- `model.buildAppConfig`: name the app (label, else service name,
namespace-qualified when they differ), drop the service when it binds no
domains, resolve per-domain certificates, then sample availability from
the service's endpoints — available iff the subsets list is non-empty
and the first subset has a ready address.  A secret fetch failure or an
endpoints fetch error aborts. -/
def buildAppConfig (cl : Cluster) (svc : Service) (rc : RouterConfig) :
    Except BuildError (Option AppConfig) :=
  let n0 := if svc.appLabel = "" then svc.name else svc.appLabel
  let name := if n0 = svc.ns then n0 else svc.ns ++ "/" ++ n0
  if svc.bound.domains.isEmpty then .ok none
  else
    match resolveCerts cl svc.ns svc.bound.certMappings rc.platformCertificate
        svc.bound.domains [] with
    | .error e => .error e
    | .ok certs =>
      match cl.getEndpoints svc.name svc.ns with
      | .error _ => .error .fetchError
      | .ok eps =>
        .ok (some
          { name := name
            domains := svc.bound.domains
            certMappings := svc.bound.certMappings
            certificates := certs
            available := match eps.subsets with
              | [] => false
              | s :: _ => decide (s.addresses ≠ [])
            proxyDomain := svc.bound.proxyDomain
            proxyLocations := svc.bound.proxyLocations
            locations := []
            serviceIP := svc.clusterIP })

/-- The service loop of `model.build`: build each routable service's
`AppConfig` in listing order, keeping the non-nil results and aborting
on the first error. -/
def buildApps (cl : Cluster) (rc : RouterConfig) : List Service → Except BuildError (List AppConfig)
  | [] => .ok []
  | svc :: rest =>
    match buildAppConfig cl svc rc with
    | .error e => .error e
    | .ok none => buildApps cl rc rest
    | .ok (some a) =>
      match buildApps cl rc rest with
      | .error e => .error e
      | .ok rest' => .ok (a :: rest')

/-- `model.appByDomain`, as the index of the first app owning the
domain (the Go function returns a pointer into the shared list). -/
def appIndexByDomain : List AppConfig → String → Option Nat
  | [], _ => none
  | a :: rest, d =>
    if memStr d a.domains then some 0 else (appIndexByDomain rest d).map (· + 1)

/-- In-place update of the `j`-th list element (pointer mutation of one
app in the shared `appConfigs` slice). -/
def modifyAt (f : α → α) : List α → Nat → List α
  | [], _ => []
  | a :: rest, 0 => f a :: rest
  | a :: rest, j + 1 => a :: modifyAt f rest j

/-- One iteration of `model.linkLocations`: when the `i`-th app declares
a non-empty `ProxyDomain` and a non-empty `ProxyLocations` list, resolve
the target app by exact domain equality; failure is the `ConfigError`
naming the missing domain, success appends one location per declared
path to the target's list, owned by the borrowing app. -/
def linkStep (cur : List AppConfig) (i : Nat) : Except BuildError (List AppConfig) :=
  match cur.get? i with
  | none => .ok cur
  | some a =>
    if a.proxyDomain ≠ "" ∧ a.proxyLocations ≠ [] then
      match appIndexByDomain cur a.proxyDomain with
      | none => .error (.configError a.proxyDomain)
      | some j =>
        .ok (modifyAt
          (fun t => { t with
            locations := t.locations ++ a.proxyLocations.map (fun p => { app := a.name, path := p }) })
          cur j)
    else .ok cur

/-- Run `linkStep` over the given indices, threading the mutated list. -/
def linkLocationsAux (cur : List AppConfig) : List Nat → Except BuildError (List AppConfig)
  | [] => .ok cur
  | i :: rest =>
    match linkStep cur i with
    | .error e => .error e
    | .ok cur' => linkLocationsAux cur' rest

/-- `model.linkLocations`: iterate the borrowing apps in listing order. -/
def linkLocations (apps : List AppConfig) : Except BuildError (List AppConfig) :=
  linkLocationsAux apps (List.range apps.length)

/-- `model.addRootLocations`: append the root `"/"` location, owned by
the app itself, to every app. -/
def addRootLocations (apps : List AppConfig) : List AppConfig :=
  apps.map fun a => { a with locations := a.locations ++ [{ app := a.name, path := "/" }] }

/-- `model.build`: assemble the router config from the platform-cert and
dhparam secrets, build every routable service's app config, link
cross-app locations, then append the root locations.  (The builder
service handling sets only the unmodelled `BuilderConfig` field.) -/
def build (cl : Cluster) (services : List Service)
    (platformCertSecret dhParamSecret : Option Secret) : Except BuildError RouterConfig :=
  let rc := buildRouterConfig platformCertSecret dhParamSecret
  match buildApps cl rc services with
  | .error e => .error e
  | .ok apps =>
    match linkLocations apps with
    | .error e => .error e
    | .ok linked => .ok { rc with appConfigs := addRootLocations linked }

/-- A file on disk: contents and permission mode bits. -/
structure FileEntry where
  contents : String
  mode : Nat
deriving DecidableEq, Repr

/-- The certificate directory, as a partial map from file name to file
entry (the directory is flat: `filepath.Glob` patterns see plain
names). -/
def Dir : Type := String → Option FileEntry

/-- `ioutil.WriteFile`: create or overwrite one file. -/
def writeFile (d : Dir) (name : String) (e : FileEntry) : Dir :=
  fun n => if n = name then some e else d n

/-- `os.Remove` / `os.RemoveAll` on one file name. -/
def removeFile (d : Dir) (name : String) : Dir :=
  fun n => if n = name then none else d n

/-- A name matched by the glob `*.crt` or `*.key`: it ends in `".crt"`
or `".key"`. -/
def isCertFile (n : String) : Bool :=
  (".crt" : String).data.isSuffixOf n.data || (".key" : String).data.isSuffixOf n.data

/-- The deletion pass of `nginx.WriteCerts`: glob and remove every
`*.crt` and every `*.key` file. -/
def removeCertFiles (d : Dir) : Dir :=
  fun n => if isCertFile n then none else d n

/-- `nginx.writeCert`: write `<context>.crt` with the certificate at
normal permissions (0644) and `<context>.key` with the key at
owner-only permissions (0600). -/
def writeCert (context : String) (c : Certificate) (d : Dir) : Dir :=
  writeFile (writeFile d (context ++ ".crt") { contents := c.cert, mode := 0o644 })
    (context ++ ".key") { contents := c.key, mode := 0o600 }

/-- The write list of `nginx.WriteCerts`: the platform certificate (when
bound) under the fixed context `"platform"`, then, per app in order,
each domain's non-nil certificate under the domain name. -/
def certWrites (rc : RouterConfig) : List (String × Certificate) :=
  (match rc.platformCertificate with
    | some c => [("platform", c)]
    | none => []) ++
  rc.appConfigs.flatMap fun a =>
    a.certificates.filterMap fun p => p.2.map fun c => (p.1, c)

/-- `nginx.WriteCerts`: delete every existing `*.crt`/`*.key` file, then
write one cert/key pair per bound certificate. -/
def WriteCerts (rc : RouterConfig) (d : Dir) : Dir :=
  (certWrites rc).foldl (fun d' p => writeCert p.1 p.2 d') (removeCertFiles d)

/-- `nginx.WriteDHParam`: remove `dhparam.pem` when the snapshot carries
no DH parameters, else write it at normal permissions. -/
def WriteDHParam (rc : RouterConfig) (d : Dir) : Dir :=
  if rc.sslConfig.dhParam = "" then removeFile d "dhparam.pem"
  else writeFile d "dhparam.pem" { contents := rc.sslConfig.dhParam, mode := 0o644 }

/-- The certificate materializer as the reconciliation loop runs it:
`WriteCerts` then `WriteDHParam` against the same directory. -/
def materialize (rc : RouterConfig) (d : Dir) : Dir :=
  WriteDHParam rc (WriteCerts rc d)

/-- The apply steps of one tick of the `main` loop, in source order. -/
inductive ApplyStep where
  | writeCerts
  | writeDHParam
  | writeConfig
  | reload
deriving DecidableEq, Repr

/-- One tick's environment: the synthesizer's outcome and whether each
apply step, were it attempted, would succeed. -/
structure TickEnv where
  buildResult : Except BuildError RouterConfig
  writeCertsOk : Bool
  writeDHParamOk : Bool
  writeConfigOk : Bool
  reloadOk : Bool

/-- The body of the `main` loop: given the last applied snapshot
`known`, return the new last applied snapshot and the list of apply
steps attempted this tick.  A build error skips the tick; an unchanged
snapshot (reflect.DeepEqual) skips the tick; otherwise the steps run in
order WriteCerts, WriteDHParam, WriteConfig, Reload, each failure
logging and abandoning the tick, and `known` is replaced only after all
four succeed. -/
def tick (known : RouterConfig) (env : TickEnv) : RouterConfig × List ApplyStep :=
  match env.buildResult with
  | .error _ => (known, [])
  | .ok rc =>
    if rc = known then (known, [])
    else if env.writeCertsOk = false then (known, [.writeCerts])
    else if env.writeDHParamOk = false then (known, [.writeCerts, .writeDHParam])
    else if env.writeConfigOk = false then
      (known, [.writeCerts, .writeDHParam, .writeConfig])
    else if env.reloadOk = false then
      (known, [.writeCerts, .writeDHParam, .writeConfig, .reload])
    else (rc, [.writeCerts, .writeDHParam, .writeConfig, .reload])

/-- The fields of an app that `linkLocations` reads but never writes. -/
def skel (a : AppConfig) : String × List String × String × List String :=
  (a.name, a.domains, a.proxyDomain, a.proxyLocations)

/-!  ### Concrete scenarios

Small closed clusters, services and snapshots used to evaluate the
verified properties on explicit inputs. -/

/-- An endpoints object whose first subset has a ready address. -/
def epsReady : Endpoints :=
  { subsets := [{ addresses := ["10.0.0.1"], notReadyAddresses := [] }] }

/-- An endpoints object whose first subset is empty while the second has
a ready address. -/
def epsTwo : Endpoints :=
  { subsets := [{ addresses := [], notReadyAddresses := [] },
                { addresses := ["10.0.0.2"], notReadyAddresses := [] }] }

/-- A cluster with no secrets and one ready endpoint everywhere. -/
def clReady : Cluster :=
  { getSecret := fun _ _ => .notFound, getEndpoints := fun _ _ => .ok epsReady }

/-- A cluster whose endpoints have a ready address only in the second
subset. -/
def clTwo : Cluster :=
  { getSecret := fun _ _ => .notFound, getEndpoints := fun _ _ => .ok epsTwo }

/-- A cluster whose every secret fetch fails with a non-404 error. -/
def clFail : Cluster :=
  { getSecret := fun _ _ => .fetchFailure, getEndpoints := fun _ _ => .ok epsReady }

/-- A cert secret that lacks the `tls.key` entry. -/
def secNoKey : Secret := { data := [("tls.crt", "C")] }

/-- A cluster where the `mm-cert` secret is missing and the `nn-cert`
secret lacks its key entry. -/
def clTLS : Cluster :=
  { getSecret := fun name _ =>
      if name = "mm-cert" then .notFound
      else if name = "nn-cert" then .found secNoKey
      else .notFound
    getEndpoints := fun _ _ => .ok epsReady }

/-- An empty snapshot (no apps, no platform certificate, no dhparam). -/
def rcEmpty : RouterConfig :=
  { sslConfig := { dhParam := "" }, appConfigs := [], platformCertificate := none }

/-- A snapshot that differs from `rcEmpty` (it carries DH parameters). -/
def rcDH : RouterConfig :=
  { sslConfig := { dhParam := "DH" }, appConfigs := [], platformCertificate := none }

/-- A tick whose build yields `rcDH` and whose apply steps all succeed. -/
def envApply : TickEnv :=
  { buildResult := .ok rcDH, writeCertsOk := true, writeDHParamOk := true
    writeConfigOk := true, reloadOk := true }

/-- A tick whose build reproduces `rcEmpty` unchanged. -/
def envSkip : TickEnv :=
  { buildResult := .ok rcEmpty, writeCertsOk := true, writeDHParamOk := true
    writeConfigOk := true, reloadOk := true }

/-- A routable service named `controller` in namespace `deis` with one
FQDN domain and no certificate mapping. -/
def svcCtl : Service :=
  { name := "controller", ns := "deis", appLabel := "", clusterIP := "1.2.3.4"
    bound := { domains := ["deis.example.com"], certMappings := []
               proxyDomain := "", proxyLocations := [] } }

/-- The app `build clReady [svcCtl] none none` synthesizes. -/
def appCtl : AppConfig :=
  { name := "deis/controller", domains := ["deis.example.com"], certMappings := []
    certificates := [], available := true, proxyDomain := "", proxyLocations := []
    locations := [{ app := "deis/controller", path := "/" }], serviceIP := "1.2.3.4" }

/-- The snapshot `build clReady [svcCtl] none none` produces. -/
def rcCtl : RouterConfig :=
  { sslConfig := { dhParam := "" }, appConfigs := [appCtl], platformCertificate := none }

/-- A platform certificate. -/
def certPlat : Certificate := { cert := "PC", key := "PK" }

/-- A snapshot carrying only the platform certificate. -/
def rcPlat : RouterConfig :=
  { sslConfig := { dhParam := "" }, appConfigs := [], platformCertificate := some certPlat }

/-- A service with one bare domain that nevertheless carries a
certificate-mapping annotation for that domain. -/
def svcBare : Service :=
  { name := "web", ns := "deis", appLabel := "", clusterIP := "2.3.4.5"
    bound := { domains := ["web"], certMappings := [("web", "ignored")]
               proxyDomain := "", proxyLocations := [] } }

/-- The app `buildAppConfig clReady svcBare rcPlat` synthesizes: the bare
domain is bound to the platform certificate, the mapping ignored. -/
def appBare : AppConfig :=
  { name := "deis/web", domains := ["web"], certMappings := [("web", "ignored")]
    certificates := [("web", some certPlat)], available := true, proxyDomain := ""
    proxyLocations := [], locations := [], serviceIP := "2.3.4.5" }

/-- A service with one bare domain and no annotations. -/
def svcApi : Service :=
  { name := "api", ns := "deis", appLabel := "", clusterIP := "3.4.5.6"
    bound := { domains := ["api"], certMappings := [], proxyDomain := ""
               proxyLocations := [] } }

/-- The app `buildAppConfig clTwo svcApi rcEmpty` synthesizes: marked
unavailable although the second endpoint subset has a ready address. -/
def appApi : AppConfig :=
  { name := "deis/api", domains := ["api"], certMappings := []
    certificates := [("api", none)], available := false, proxyDomain := ""
    proxyLocations := [], locations := [], serviceIP := "3.4.5.6" }

/-- The app `buildAppConfig clReady svcApi rcEmpty` synthesizes: its bare
domain is bound to the absent platform certificate (a nil binding). -/
def appApiUp : AppConfig :=
  { name := "deis/api", domains := ["api"], certMappings := []
    certificates := [("api", none)], available := true, proxyDomain := ""
    proxyLocations := [], locations := [], serviceIP := "3.4.5.6" }

/-- A service with two FQDN domains mapped to the `mm`/`nn` aliases. -/
def svcTLS : Service :=
  { name := "tls", ns := "deis", appLabel := "", clusterIP := "4.5.6.7"
    bound := { domains := ["m.example.com", "n.example.com"]
               certMappings := [("m.example.com", "mm"), ("n.example.com", "nn")]
               proxyDomain := "", proxyLocations := [] } }

/-- The app `buildAppConfig clTLS svcTLS rcEmpty` synthesizes: the
missing `mm-cert` secret leaves `m.example.com` unbound, the key-less
`nn-cert` secret binds `n.example.com` to a nil certificate. -/
def appTLS : AppConfig :=
  { name := "deis/tls", domains := ["m.example.com", "n.example.com"]
    certMappings := [("m.example.com", "mm"), ("n.example.com", "nn")]
    certificates := [("n.example.com", none)], available := true, proxyDomain := ""
    proxyLocations := [], locations := [], serviceIP := "4.5.6.7" }

/-- A service with a certificate mapping whose secret fetch fails. -/
def svcMapped : Service :=
  { name := "sec", ns := "deis", appLabel := "", clusterIP := "5.6.7.8"
    bound := { domains := ["a.example.com"]
               certMappings := [("a.example.com", "acert")]
               proxyDomain := "", proxyLocations := [] } }

/-- A service declaring a dangling `ProxyDomain` with an empty
`ProxyLocations` list. -/
def svcDangling : Service :=
  { name := "a", ns := "default", appLabel := "", clusterIP := "1.1.1.1"
    bound := { domains := ["alpha"], certMappings := []
               proxyDomain := "missing.example.com", proxyLocations := [] } }

/-- The app `build clReady [svcDangling] none none` synthesizes. -/
def appDangling : AppConfig :=
  { name := "default/a", domains := ["alpha"], certMappings := []
    certificates := [("alpha", none)], available := true
    proxyDomain := "missing.example.com", proxyLocations := []
    locations := [{ app := "default/a", path := "/" }], serviceIP := "1.1.1.1" }

/-- The snapshot `build clReady [svcDangling] none none` produces. -/
def rcDangling : RouterConfig :=
  { sslConfig := { dhParam := "" }, appConfigs := [appDangling]
    platformCertificate := none }

/-- A service declaring a dangling `ProxyDomain` with a non-empty
`ProxyLocations` list. -/
def svcBorrower : Service :=
  { name := "b", ns := "default", appLabel := "", clusterIP := "1.1.1.2"
    bound := { domains := ["beta"], certMappings := []
               proxyDomain := "gone.example.com", proxyLocations := ["/x"] } }

/-- The app `buildApps clReady (buildRouterConfig none none) [svcBorrower]`
synthesizes before linking. -/
def appBorrower : AppConfig :=
  { name := "default/b", domains := ["beta"], certMappings := []
    certificates := [("beta", none)], available := true
    proxyDomain := "gone.example.com", proxyLocations := ["/x"]
    locations := [], serviceIP := "1.1.1.2" }

/-- A per-domain certificate. -/
def certD : Certificate := { cert := "DC", key := "DK" }

/-- A snapshot binding the platform certificate, one per-domain
certificate, and one nil per-domain binding. -/
def rcCerts : RouterConfig :=
  { sslConfig := { dhParam := "DH" }
    appConfigs := [{ name := "x", domains := ["d.example.com"], certMappings := []
                     certificates := [("d.example.com", some certD), ("nil.example.com", none)]
                     available := true, proxyDomain := "", proxyLocations := []
                     locations := [], serviceIP := "" }]
    platformCertificate := some certPlat }

/-- A directory holding one stale certificate file and one unrelated
file. -/
def dirStale : Dir := fun n =>
  if n = "stale.crt" then some { contents := "old", mode := 0o644 }
  else if n = "readme.txt" then some { contents := "hi", mode := 0o644 }
  else none

/-! ### Association-map and membership lemmas -/

theorem alistLookup_mapInsert_self (k : String) (v : α) :
    ∀ l : List (String × α), alistLookup k (mapInsert k v l) = some v := by
  intro l
  induction l with
  | nil => simp [mapInsert, alistLookup]
  | cons p rest ih =>
    by_cases h : p.1 = k
    · simp [mapInsert, h, alistLookup]
    · simp [mapInsert, h, alistLookup, ih]

theorem alistLookup_mapInsert_ne {k k' : String} (v : α) (h : k' ≠ k) :
    ∀ l : List (String × α), alistLookup k (mapInsert k' v l) = alistLookup k l := by
  intro l
  induction l with
  | nil => simp [mapInsert, alistLookup, h]
  | cons p rest ih =>
    by_cases h1 : p.1 = k'
    · simp [mapInsert, h1, alistLookup, h]
    · simp [mapInsert, h1, alistLookup, ih]

theorem memStr_iff {d : String} : ∀ {l : List String}, memStr d l = true ↔ d ∈ l := by
  intro l
  induction l with
  | nil => simp [memStr]
  | cons x rest ih =>
    by_cases h : x = d
    · simp [memStr, h]
    · simp [memStr, h, ih, Ne.symm h]

/-! ### Certificate-resolution lemmas -/

theorem resolveCerts_cons_bare {cl : Cluster} {ns : String} {mappings : List (String × String)}
    {platform : Option Certificate} {x : String} (h : containsDot x = false)
    (rest : List String) (acc : List (String × Option Certificate)) :
    resolveCerts cl ns mappings platform (x :: rest) acc =
      resolveCerts cl ns mappings platform rest (mapInsert x platform acc) := by
  simp [resolveCerts, h]

theorem resolveCerts_cons_noMapping {cl : Cluster} {ns : String}
    {mappings : List (String × String)} {platform : Option Certificate} {x : String}
    (h : containsDot x = true) (hm : alistLookup x mappings = none)
    (rest : List String) (acc : List (String × Option Certificate)) :
    resolveCerts cl ns mappings platform (x :: rest) acc =
      resolveCerts cl ns mappings platform rest acc := by
  simp [resolveCerts, h, hm]

theorem resolveCerts_cons_notFound {cl : Cluster} {ns : String}
    {mappings : List (String × String)} {platform : Option Certificate} {x mp : String}
    (h : containsDot x = true) (hm : alistLookup x mappings = some mp)
    (hs : cl.getSecret (mp ++ "-cert") ns = .notFound)
    (rest : List String) (acc : List (String × Option Certificate)) :
    resolveCerts cl ns mappings platform (x :: rest) acc =
      resolveCerts cl ns mappings platform rest acc := by
  simp [resolveCerts, h, hm, hs]

theorem resolveCerts_cons_found {cl : Cluster} {ns : String}
    {mappings : List (String × String)} {platform : Option Certificate} {x mp : String}
    {s : Secret} (h : containsDot x = true) (hm : alistLookup x mappings = some mp)
    (hs : cl.getSecret (mp ++ "-cert") ns = .found s)
    (rest : List String) (acc : List (String × Option Certificate)) :
    resolveCerts cl ns mappings platform (x :: rest) acc =
      resolveCerts cl ns mappings platform rest (mapInsert x (buildCertificate s) acc) := by
  simp [resolveCerts, h, hm, hs]

theorem resolveCerts_cons_fail {cl : Cluster} {ns : String}
    {mappings : List (String × String)} {platform : Option Certificate} {x mp : String}
    (h : containsDot x = true) (hm : alistLookup x mappings = some mp)
    (hs : cl.getSecret (mp ++ "-cert") ns = .fetchFailure)
    (rest : List String) (acc : List (String × Option Certificate)) :
    resolveCerts cl ns mappings platform (x :: rest) acc = .error .fetchError := by
  simp [resolveCerts, h, hm, hs]

theorem resolveCerts_lookup_notmem {cl : Cluster} {ns : String}
    {mappings : List (String × String)} {platform : Option Certificate} {d : String} :
    ∀ {ds : List String} {acc m : List (String × Option Certificate)},
      d ∉ ds → resolveCerts cl ns mappings platform ds acc = .ok m →
      alistLookup d m = alistLookup d acc := by
  intro ds
  induction ds with
  | nil =>
    intro acc m _ hok
    rw [resolveCerts] at hok
    cases hok
    rfl
  | cons x rest ih =>
    intro acc m hmem hok
    have hx : d ≠ x := fun h => hmem (h ▸ List.mem_cons_self x rest)
    have hrest : d ∉ rest := fun h => hmem (List.mem_cons_of_mem x h)
    cases hxc : containsDot x with
    | false =>
      rw [resolveCerts_cons_bare hxc] at hok
      rw [ih hrest hok, alistLookup_mapInsert_ne _ (Ne.symm hx)]
    | true =>
      cases hmp : alistLookup x mappings with
      | none =>
        rw [resolveCerts_cons_noMapping hxc hmp] at hok
        exact ih hrest hok
      | some mp =>
        cases hsec : cl.getSecret (mp ++ "-cert") ns with
        | fetchFailure =>
          rw [resolveCerts_cons_fail hxc hmp hsec] at hok
          exact absurd hok (by simp)
        | notFound =>
          rw [resolveCerts_cons_notFound hxc hmp hsec] at hok
          exact ih hrest hok
        | found s =>
          rw [resolveCerts_cons_found hxc hmp hsec] at hok
          rw [ih hrest hok, alistLookup_mapInsert_ne _ (Ne.symm hx)]

theorem resolveCerts_lookup_bare {cl : Cluster} {ns : String}
    {mappings : List (String × String)} {platform : Option Certificate} {d : String}
    (hbare : containsDot d = false) :
    ∀ {ds : List String} {acc m : List (String × Option Certificate)},
      d ∈ ds → resolveCerts cl ns mappings platform ds acc = .ok m →
      alistLookup d m = some platform := by
  intro ds
  induction ds with
  | nil => intro acc m hmem; cases hmem
  | cons x rest ih =>
    intro acc m hmem hok
    by_cases hdx : d = x
    · subst hdx
      rw [resolveCerts_cons_bare hbare] at hok
      by_cases hrest : d ∈ rest
      · exact ih hrest hok
      · rw [resolveCerts_lookup_notmem hrest hok, alistLookup_mapInsert_self]
    · have hrest : d ∈ rest := by
        cases List.mem_cons.mp hmem with
        | inl h => exact absurd h hdx
        | inr h => exact h
      cases hxc : containsDot x with
      | false =>
        rw [resolveCerts_cons_bare hxc] at hok
        exact ih hrest hok
      | true =>
        cases hmp : alistLookup x mappings with
        | none =>
          rw [resolveCerts_cons_noMapping hxc hmp] at hok
          exact ih hrest hok
        | some mp =>
          cases hsec : cl.getSecret (mp ++ "-cert") ns with
          | fetchFailure =>
            rw [resolveCerts_cons_fail hxc hmp hsec] at hok
            exact absurd hok (by simp)
          | notFound =>
            rw [resolveCerts_cons_notFound hxc hmp hsec] at hok
            exact ih hrest hok
          | found s =>
            rw [resolveCerts_cons_found hxc hmp hsec] at hok
            exact ih hrest hok

theorem resolveCerts_lookup_notFound {cl : Cluster} {ns : String}
    {mappings : List (String × String)} {platform : Option Certificate} {d mp : String}
    (hfq : containsDot d = true) (hmp : alistLookup d mappings = some mp)
    (hsec : cl.getSecret (mp ++ "-cert") ns = .notFound) :
    ∀ {ds : List String} {acc m : List (String × Option Certificate)},
      d ∈ ds → resolveCerts cl ns mappings platform ds acc = .ok m →
      alistLookup d m = alistLookup d acc := by
  intro ds
  induction ds with
  | nil => intro acc m hmem; cases hmem
  | cons x rest ih =>
    intro acc m hmem hok
    by_cases hdx : d = x
    · subst hdx
      rw [resolveCerts_cons_notFound hfq hmp hsec] at hok
      by_cases hrest : d ∈ rest
      · exact ih hrest hok
      · exact resolveCerts_lookup_notmem hrest hok
    · have hrest : d ∈ rest := by
        cases List.mem_cons.mp hmem with
        | inl h => exact absurd h hdx
        | inr h => exact h
      cases hxc : containsDot x with
      | false =>
        rw [resolveCerts_cons_bare hxc] at hok
        rw [ih hrest hok, alistLookup_mapInsert_ne _ (Ne.symm hdx)]
      | true =>
        cases hmpx : alistLookup x mappings with
        | none =>
          rw [resolveCerts_cons_noMapping hxc hmpx] at hok
          exact ih hrest hok
        | some mpx =>
          cases hsecx : cl.getSecret (mpx ++ "-cert") ns with
          | fetchFailure =>
            rw [resolveCerts_cons_fail hxc hmpx hsecx] at hok
            exact absurd hok (by simp)
          | notFound =>
            rw [resolveCerts_cons_notFound hxc hmpx hsecx] at hok
            exact ih hrest hok
          | found s =>
            rw [resolveCerts_cons_found hxc hmpx hsecx] at hok
            rw [ih hrest hok, alistLookup_mapInsert_ne _ (Ne.symm hdx)]

theorem resolveCerts_lookup_found {cl : Cluster} {ns : String}
    {mappings : List (String × String)} {platform : Option Certificate} {d mp : String}
    {s : Secret} (hfq : containsDot d = true) (hmp : alistLookup d mappings = some mp)
    (hsec : cl.getSecret (mp ++ "-cert") ns = .found s) :
    ∀ {ds : List String} {acc m : List (String × Option Certificate)},
      d ∈ ds → resolveCerts cl ns mappings platform ds acc = .ok m →
      alistLookup d m = some (buildCertificate s) := by
  intro ds
  induction ds with
  | nil => intro acc m hmem; cases hmem
  | cons x rest ih =>
    intro acc m hmem hok
    by_cases hdx : d = x
    · subst hdx
      rw [resolveCerts_cons_found hfq hmp hsec] at hok
      by_cases hrest : d ∈ rest
      · exact ih hrest hok
      · rw [resolveCerts_lookup_notmem hrest hok, alistLookup_mapInsert_self]
    · have hrest : d ∈ rest := by
        cases List.mem_cons.mp hmem with
        | inl h => exact absurd h hdx
        | inr h => exact h
      cases hxc : containsDot x with
      | false =>
        rw [resolveCerts_cons_bare hxc] at hok
        exact ih hrest hok
      | true =>
        cases hmpx : alistLookup x mappings with
        | none =>
          rw [resolveCerts_cons_noMapping hxc hmpx] at hok
          exact ih hrest hok
        | some mpx =>
          cases hsecx : cl.getSecret (mpx ++ "-cert") ns with
          | fetchFailure =>
            rw [resolveCerts_cons_fail hxc hmpx hsecx] at hok
            exact absurd hok (by simp)
          | notFound =>
            rw [resolveCerts_cons_notFound hxc hmpx hsecx] at hok
            exact ih hrest hok
          | found sx =>
            rw [resolveCerts_cons_found hxc hmpx hsecx] at hok
            exact ih hrest hok

theorem resolveCerts_total {cl : Cluster} {ns : String}
    {mappings : List (String × String)} {platform : Option Certificate} :
    ∀ {ds : List String} (acc : List (String × Option Certificate)),
      (∀ d ∈ ds, containsDot d = true → ∀ mp, alistLookup d mappings = some mp →
        cl.getSecret (mp ++ "-cert") ns ≠ .fetchFailure) →
      ∃ m, resolveCerts cl ns mappings platform ds acc = .ok m := by
  intro ds
  induction ds with
  | nil => intro acc _; exact ⟨acc, rfl⟩
  | cons x rest ih =>
    intro acc hsafe
    have hrest : ∀ d ∈ rest, containsDot d = true → ∀ mp,
        alistLookup d mappings = some mp →
        cl.getSecret (mp ++ "-cert") ns ≠ .fetchFailure :=
      fun d hd => hsafe d (List.mem_cons_of_mem x hd)
    cases hxc : containsDot x with
    | false =>
      rw [resolveCerts_cons_bare hxc]
      exact ih _ hrest
    | true =>
      cases hmp : alistLookup x mappings with
      | none =>
        rw [resolveCerts_cons_noMapping hxc hmp]
        exact ih acc hrest
      | some mp =>
        cases hsec : cl.getSecret (mp ++ "-cert") ns with
        | fetchFailure =>
          exact absurd hsec (hsafe x (List.mem_cons_self x rest) hxc mp hmp)
        | notFound =>
          rw [resolveCerts_cons_notFound hxc hmp hsec]
          exact ih acc hrest
        | found s =>
          rw [resolveCerts_cons_found hxc hmp hsec]
          exact ih _ hrest

/-! ### Synthesizer inversion lemmas -/

theorem buildAppConfig_empty {cl : Cluster} {svc : Service} {rc : RouterConfig}
    (hne : svc.bound.domains.isEmpty = true) :
    buildAppConfig cl svc rc = .ok none := by
  simp [buildAppConfig, hne]

theorem buildAppConfig_certsErr {cl : Cluster} {svc : Service} {rc : RouterConfig}
    {e : BuildError} (hne : svc.bound.domains.isEmpty = false)
    (hcerts : resolveCerts cl svc.ns svc.bound.certMappings rc.platformCertificate
      svc.bound.domains [] = .error e) :
    buildAppConfig cl svc rc = .error e := by
  simp [buildAppConfig, hne, hcerts]

theorem buildAppConfig_epsErr {cl : Cluster} {svc : Service} {rc : RouterConfig}
    {certs : List (String × Option Certificate)} {u : Unit}
    (hne : svc.bound.domains.isEmpty = false)
    (hcerts : resolveCerts cl svc.ns svc.bound.certMappings rc.platformCertificate
      svc.bound.domains [] = .ok certs)
    (heps : cl.getEndpoints svc.name svc.ns = .error u) :
    buildAppConfig cl svc rc = .error .fetchError := by
  simp [buildAppConfig, hne, hcerts, heps]

theorem buildAppConfig_eq {cl : Cluster} {svc : Service} {rc : RouterConfig}
    {certs : List (String × Option Certificate)} {eps : Endpoints}
    (hne : svc.bound.domains.isEmpty = false)
    (hcerts : resolveCerts cl svc.ns svc.bound.certMappings rc.platformCertificate
      svc.bound.domains [] = .ok certs)
    (heps : cl.getEndpoints svc.name svc.ns = .ok eps) :
    buildAppConfig cl svc rc = .ok (some
      { name :=
          if (if svc.appLabel = "" then svc.name else svc.appLabel) = svc.ns
          then (if svc.appLabel = "" then svc.name else svc.appLabel)
          else svc.ns ++ "/" ++ (if svc.appLabel = "" then svc.name else svc.appLabel)
        domains := svc.bound.domains
        certMappings := svc.bound.certMappings
        certificates := certs
        available := match eps.subsets with
          | [] => false
          | s :: _ => decide (s.addresses ≠ [])
        proxyDomain := svc.bound.proxyDomain
        proxyLocations := svc.bound.proxyLocations
        locations := []
        serviceIP := svc.clusterIP }) := by
  simp [buildAppConfig, hne, hcerts, heps]

theorem buildAppConfig_inv {cl : Cluster} {svc : Service} {rc : RouterConfig} {app : AppConfig}
    (h : buildAppConfig cl svc rc = .ok (some app)) :
    ∃ certs eps,
      resolveCerts cl svc.ns svc.bound.certMappings rc.platformCertificate
          svc.bound.domains [] = .ok certs ∧
      cl.getEndpoints svc.name svc.ns = .ok eps ∧
      app.certificates = certs ∧
      app.domains = svc.bound.domains ∧
      app.available = (match eps.subsets with
        | [] => false
        | s :: _ => decide (s.addresses ≠ [])) ∧
      app.locations = [] := by
  cases hne : svc.bound.domains.isEmpty with
  | true =>
    rw [buildAppConfig_empty hne] at h
    exact absurd h (by simp)
  | false =>
    cases hcerts : resolveCerts cl svc.ns svc.bound.certMappings rc.platformCertificate
        svc.bound.domains [] with
    | error e =>
      rw [buildAppConfig_certsErr hne hcerts] at h
      exact absurd h (by simp)
    | ok certs =>
      cases heps : cl.getEndpoints svc.name svc.ns with
      | error u =>
        rw [buildAppConfig_epsErr hne hcerts heps] at h
        exact absurd h (by simp)
      | ok eps =>
        rw [buildAppConfig_eq hne hcerts heps] at h
        simp only [Except.ok.injEq, Option.some.injEq] at h
        subst h
        exact ⟨certs, eps, rfl, rfl, rfl, rfl, rfl, rfl⟩

theorem buildAppConfig_total {cl : Cluster} {svc : Service} {rc : RouterConfig}
    (hsafe : ∀ d ∈ svc.bound.domains, containsDot d = true → ∀ mp,
      alistLookup d svc.bound.certMappings = some mp →
      cl.getSecret (mp ++ "-cert") svc.ns ≠ .fetchFailure)
    (heps : ∃ eps, cl.getEndpoints svc.name svc.ns = .ok eps) :
    ∃ r, buildAppConfig cl svc rc = .ok r := by
  cases hne : svc.bound.domains.isEmpty with
  | true => exact ⟨none, buildAppConfig_empty hne⟩
  | false =>
    obtain ⟨certs, hcerts⟩ :=
      @resolveCerts_total cl svc.ns svc.bound.certMappings rc.platformCertificate
        svc.bound.domains [] hsafe
    obtain ⟨eps, heps'⟩ := heps
    exact ⟨_, buildAppConfig_eq hne hcerts heps'⟩

theorem build_inv {cl : Cluster} {services : List Service} {pcs dhs : Option Secret}
    {rc : RouterConfig} (h : build cl services pcs dhs = .ok rc) :
    ∃ apps linked,
      buildApps cl (buildRouterConfig pcs dhs) services = .ok apps ∧
      linkLocations apps = .ok linked ∧
      rc.appConfigs = addRootLocations linked := by
  rw [build] at h
  split at h
  · exact absurd h (by simp)
  · next apps happs =>
    split at h
    · exact absurd h (by simp)
    · next linked hlinked =>
      cases h
      exact ⟨apps, linked, happs, hlinked, rfl⟩

theorem addRootLocations_mem {apps : List AppConfig} {a : AppConfig}
    (h : a ∈ addRootLocations apps) :
    ∃ b ∈ apps,
      a = { b with locations := b.locations ++ [{ app := b.name, path := "/" }] } := by
  obtain ⟨b, hb, rfl⟩ := List.mem_map.mp h
  exact ⟨b, hb, rfl⟩

/-! ### Cross-app linking lemmas

`linkLocations` mutates only the `locations` lists of the shared apps;
everything else — in particular the fields that drive target resolution —
is frozen.  `skel` projects those frozen fields. -/

theorem modifyAt_map_of_fix {f : α → α} {g : α → β} (hfix : ∀ x, g (f x) = g x) :
    ∀ (l : List α) (j : Nat), (modifyAt f l j).map g = l.map g := by
  intro l
  induction l with
  | nil => intro j; rfl
  | cons a rest ih =>
    intro j
    cases j with
    | zero => simp [modifyAt, hfix]
    | succ j' => simp [modifyAt, ih j']

theorem linkStep_ok_skel {cur cur' : List AppConfig} {i : Nat}
    (h : linkStep cur i = .ok cur') : cur'.map skel = cur.map skel := by
  rw [linkStep] at h
  split at h
  · cases h; rfl
  · split at h
    · split at h
      · exact absurd h (by simp)
      · cases h
        apply modifyAt_map_of_fix
        intro x
        rfl
    · cases h; rfl

theorem linkStep_error_inv {cur : List AppConfig} {i : Nat} {e : BuildError}
    (h : linkStep cur i = .error e) :
    ∃ a, cur.get? i = some a ∧ a.proxyDomain ≠ "" ∧ a.proxyLocations ≠ [] ∧
      appIndexByDomain cur a.proxyDomain = none ∧ e = .configError a.proxyDomain := by
  rw [linkStep] at h
  split at h
  · exact absurd h (by simp)
  · rename_i a hget
    split at h
    · rename_i hcond
      split at h
      · rename_i hnone
        cases h
        exact ⟨a, hget, hcond.1, hcond.2, hnone, rfl⟩
      · exact absurd h (by simp)
    · exact absurd h (by simp)

theorem linkStep_not_error {cur : List AppConfig} {i : Nat} {a : AppConfig}
    (hget : cur.get? i = some a) (hpd : a.proxyDomain ≠ "") (hpl : a.proxyLocations ≠ [])
    (hidx : appIndexByDomain cur a.proxyDomain = none) :
    linkStep cur i = .error (.configError a.proxyDomain) := by
  unfold linkStep
  rw [hget]
  simp [hidx, hpd, hpl]

theorem appIndexByDomain_eq_none_iff {d : String} :
    ∀ {l : List AppConfig}, appIndexByDomain l d = none ↔ ∀ a ∈ l, memStr d a.domains = false := by
  intro l
  induction l with
  | nil => simp [appIndexByDomain]
  | cons a rest ih =>
    cases hm : memStr d a.domains with
    | true => simp [appIndexByDomain, hm]
    | false => simp [appIndexByDomain, hm, ih]

theorem skel_mem_transfer {cur apps : List AppConfig} (hsk : cur.map skel = apps.map skel)
    {a : AppConfig} (ha : a ∈ cur) : ∃ b ∈ apps, skel b = skel a := by
  have : skel a ∈ apps.map skel := hsk ▸ List.mem_map_of_mem skel ha
  obtain ⟨b, hb, hba⟩ := List.mem_map.mp this
  exact ⟨b, hb, hba⟩

theorem skel_get?_transfer {cur apps : List AppConfig} (hsk : cur.map skel = apps.map skel)
    {i : Nat} {b : AppConfig} (hb : apps.get? i = some b) :
    ∃ a, cur.get? i = some a ∧ skel a = skel b := by
  have h1 : (cur.map skel).get? i = (apps.map skel).get? i := by rw [hsk]
  rw [List.get?_map, List.get?_map, hb] at h1
  obtain ⟨a, ha, hab⟩ := Option.map_eq_some'.mp h1
  exact ⟨a, ha, hab⟩

theorem skel_appIndex_none {cur apps : List AppConfig} {d : String}
    (hsk : cur.map skel = apps.map skel)
    (h : ∀ c ∈ apps, memStr d c.domains = false) :
    appIndexByDomain cur d = none := by
  rw [appIndexByDomain_eq_none_iff]
  intro a ha
  obtain ⟨b, hb, hba⟩ := skel_mem_transfer hsk ha
  have : b.domains = a.domains := congrArg (fun p => p.2.1) hba
  rw [← this]
  exact h b hb

theorem linkLocationsAux_error_inv {apps : List AppConfig} {e : BuildError} :
    ∀ {idxs : List Nat} {cur : List AppConfig}, cur.map skel = apps.map skel →
      linkLocationsAux cur idxs = .error e →
      ∃ D, e = .configError D ∧ (∃ b ∈ apps, b.proxyDomain = D ∧ b.proxyLocations ≠ []) ∧
        ∀ c ∈ apps, memStr D c.domains = false := by
  intro idxs
  induction idxs with
  | nil =>
    intro cur _ h
    rw [linkLocationsAux] at h
    exact absurd h (by simp)
  | cons i rest ih =>
    intro cur hsk h
    rw [linkLocationsAux] at h
    split at h
    · rename_i e' hstep
      cases h
      obtain ⟨a, hget, hpd, hpl, hidx, he⟩ := linkStep_error_inv hstep
      have ha : a ∈ cur := List.mem_iff_get?.mpr ⟨i, hget⟩
      obtain ⟨b, hb, hba⟩ := skel_mem_transfer hsk ha
      have hbd : b.proxyDomain = a.proxyDomain := congrArg (fun p => p.2.2.1) hba
      have hblocs : b.proxyLocations = a.proxyLocations := congrArg (fun p => p.2.2.2) hba
      refine ⟨a.proxyDomain, he, ⟨b, hb, hbd, hblocs ▸ hpl⟩, ?_⟩
      intro c hc
      have hnone := appIndexByDomain_eq_none_iff.mp hidx
      obtain ⟨b', hb', hb'c⟩ := skel_mem_transfer (hsk.symm) hc
      have hcd : b'.domains = c.domains := congrArg (fun p => p.2.1) hb'c
      rw [← hcd]
      exact hnone b' hb'
    · rename_i cur' hstep
      exact ih (Eq.trans (linkStep_ok_skel hstep) hsk) h

theorem linkLocationsAux_dangling {apps : List AppConfig} {b : AppConfig}
    (hpd : b.proxyDomain ≠ "") (hpl : b.proxyLocations ≠ [])
    (hun : ∀ c ∈ apps, memStr b.proxyDomain c.domains = false) :
    ∀ {idxs : List Nat} {cur : List AppConfig} {i : Nat}, cur.map skel = apps.map skel →
      i ∈ idxs → apps.get? i = some b →
      ∃ e, linkLocationsAux cur idxs = .error e := by
  intro idxs
  induction idxs with
  | nil => intro cur i _ hmem; cases hmem
  | cons j rest ih =>
    intro cur i hsk hmem hget
    rw [linkLocationsAux]
    cases hstep : linkStep cur j with
    | error e => exact ⟨e, rfl⟩
    | ok cur' =>
      have hsk' : cur'.map skel = apps.map skel := Eq.trans (linkStep_ok_skel hstep) hsk
      cases List.mem_cons.mp hmem with
      | inl hij =>
        subst hij
        obtain ⟨a, ha, hab⟩ := skel_get?_transfer hsk hget
        have had : a.proxyDomain = b.proxyDomain := congrArg (fun p => p.2.2.1) hab
        have hal : a.proxyLocations = b.proxyLocations := congrArg (fun p => p.2.2.2) hab
        have hidx : appIndexByDomain cur a.proxyDomain = none :=
          had ▸ skel_appIndex_none hsk hun
        have := linkStep_not_error ha (had ▸ hpd) (hal ▸ hpl) hidx
        rw [this] at hstep
        exact absurd hstep (by simp)
      | inr hrest => exact ih hsk' hrest hget

theorem build_linkErr {cl : Cluster} {services : List Service} {pcs dhs : Option Secret}
    {apps : List AppConfig} {e : BuildError}
    (happs : buildApps cl (buildRouterConfig pcs dhs) services = .ok apps)
    (hlink : linkLocations apps = .error e) :
    build cl services pcs dhs = .error e := by
  simp [build, happs, hlink]

/-! ### File-name lemmas -/

theorem crt_append_inj {s t : String} (h : s ++ ".crt" = t ++ ".crt") : s = t := by
  have hd := congrArg String.data h
  rw [String.data_append, String.data_append] at hd
  exact String.ext (List.append_inj' hd rfl).1

theorem key_append_inj {s t : String} (h : s ++ ".key" = t ++ ".key") : s = t := by
  have hd := congrArg String.data h
  rw [String.data_append, String.data_append] at hd
  exact String.ext (List.append_inj' hd rfl).1

theorem crt_ne_key (s t : String) : s ++ ".crt" ≠ t ++ ".key" := by
  intro h
  have hd := congrArg String.data h
  rw [String.data_append, String.data_append] at hd
  have h2 := (List.append_inj' hd rfl).2
  simp at h2

theorem isCertFile_crt (s : String) : isCertFile (s ++ ".crt") = true := by
  have h : (".crt" : String).data.isSuffixOf (s ++ ".crt").data = true := by
    rw [List.isSuffixOf_iff_suffix, String.data_append]
    exact List.suffix_append _ _
  simp [isCertFile, h]

theorem isCertFile_key (s : String) : isCertFile (s ++ ".key") = true := by
  have h : (".key" : String).data.isSuffixOf (s ++ ".key").data = true := by
    rw [List.isSuffixOf_iff_suffix, String.data_append]
    exact List.suffix_append _ _
  simp [isCertFile, h]

theorem isCertFile_dhparam : isCertFile "dhparam.pem" = false := rfl

/-! ### Materializer lemmas -/

theorem foldl_writeCert_congr :
    ∀ (writes : List (String × Certificate)) (d₁ d₂ : Dir) (n : String), d₁ n = d₂ n →
      (writes.foldl (fun d' p => writeCert p.1 p.2 d') d₁) n =
      (writes.foldl (fun d' p => writeCert p.1 p.2 d') d₂) n := by
  intro writes
  induction writes with
  | nil => intro d₁ d₂ n h; exact h
  | cons p rest ih =>
    intro d₁ d₂ n h
    apply ih
    by_cases hk : n = p.1 ++ ".key"
    · simp [writeCert, writeFile, hk]
    · by_cases hc : n = p.1 ++ ".crt" <;> simp [writeCert, writeFile, hk, hc, h]

theorem foldl_writeCert_notTouched :
    ∀ (writes : List (String × Certificate)) (d : Dir) (n : String),
      (∀ p ∈ writes, n ≠ p.1 ++ ".crt" ∧ n ≠ p.1 ++ ".key") →
      (writes.foldl (fun d' p => writeCert p.1 p.2 d') d) n = d n := by
  intro writes
  induction writes with
  | nil => intro d n _; rfl
  | cons p rest ih =>
    intro d n hnt
    have hp := hnt p (List.mem_cons_self p rest)
    have hrest : ∀ q ∈ rest, n ≠ q.1 ++ ".crt" ∧ n ≠ q.1 ++ ".key" :=
      fun q hq => hnt q (List.mem_cons_of_mem p hq)
    rw [List.foldl_cons, ih _ n hrest]
    simp [writeCert, writeFile, hp.1, hp.2]

theorem foldl_writeCert_crt {ctx : String} {c : Certificate} :
    ∀ {writes : List (String × Certificate)}, (writes.map Prod.fst).Nodup →
      (ctx, c) ∈ writes → ∀ d : Dir,
      (writes.foldl (fun d' p => writeCert p.1 p.2 d') d) (ctx ++ ".crt") =
        some { contents := c.cert, mode := 0o644 } := by
  intro writes
  induction writes with
  | nil => intro _ hmem; cases hmem
  | cons p rest ih =>
    intro hnd hmem d
    rw [List.map_cons, List.nodup_cons] at hnd
    rw [List.foldl_cons]
    cases List.mem_cons.mp hmem with
    | inl hp =>
      have hctx : p.1 = ctx := by rw [← hp]
      have hrest : ∀ q ∈ rest, ctx ++ ".crt" ≠ q.1 ++ ".crt" ∧ ctx ++ ".crt" ≠ q.1 ++ ".key" := by
        intro q hq
        constructor
        · intro he
          have hq1 : ctx = q.1 := crt_append_inj he
          refine absurd ?_ hnd.1
          rw [hctx, hq1]
          exact List.mem_map_of_mem Prod.fst hq
        · exact crt_ne_key ctx q.1
      rw [foldl_writeCert_notTouched rest _ _ hrest]
      simp [writeCert, writeFile, crt_ne_key ctx ctx, hctx, ← hp]
    | inr hr => exact ih hnd.2 hr _

theorem foldl_writeCert_key {ctx : String} {c : Certificate} :
    ∀ {writes : List (String × Certificate)}, (writes.map Prod.fst).Nodup →
      (ctx, c) ∈ writes → ∀ d : Dir,
      (writes.foldl (fun d' p => writeCert p.1 p.2 d') d) (ctx ++ ".key") =
        some { contents := c.key, mode := 0o600 } := by
  intro writes
  induction writes with
  | nil => intro _ hmem; cases hmem
  | cons p rest ih =>
    intro hnd hmem d
    rw [List.map_cons, List.nodup_cons] at hnd
    rw [List.foldl_cons]
    cases List.mem_cons.mp hmem with
    | inl hp =>
      have hctx : p.1 = ctx := by rw [← hp]
      have hrest : ∀ q ∈ rest, ctx ++ ".key" ≠ q.1 ++ ".crt" ∧ ctx ++ ".key" ≠ q.1 ++ ".key" := by
        intro q hq
        constructor
        · exact (crt_ne_key q.1 ctx).symm
        · intro he
          have hq1 : ctx = q.1 := key_append_inj he
          refine absurd ?_ hnd.1
          rw [hctx, hq1]
          exact List.mem_map_of_mem Prod.fst hq
      rw [foldl_writeCert_notTouched rest _ _ hrest]
      simp [writeCert, writeFile, hctx, ← hp]
    | inr hr => exact ih hnd.2 hr _

theorem WriteCerts_noncert {rc : RouterConfig} {d : Dir} {n : String}
    (hn : isCertFile n = false) : WriteCerts rc d n = d n := by
  rw [WriteCerts, foldl_writeCert_notTouched]
  · simp [removeCertFiles, hn]
  · intro p hp
    constructor
    · intro he
      rw [he, isCertFile_crt] at hn
      cases hn
    · intro he
      rw [he, isCertFile_key] at hn
      cases hn

theorem WriteCerts_stale {rc : RouterConfig} {d : Dir} {n : String}
    (hc : isCertFile n = true)
    (hnt : ∀ p ∈ certWrites rc, n ≠ p.1 ++ ".crt" ∧ n ≠ p.1 ++ ".key") :
    WriteCerts rc d n = none := by
  rw [WriteCerts, foldl_writeCert_notTouched _ _ _ hnt]
  simp [removeCertFiles, hc]

theorem WriteCerts_crt {rc : RouterConfig} {d : Dir} {ctx : String} {c : Certificate}
    (hnd : ((certWrites rc).map Prod.fst).Nodup) (hmem : (ctx, c) ∈ certWrites rc) :
    WriteCerts rc d (ctx ++ ".crt") = some { contents := c.cert, mode := 0o644 } :=
  foldl_writeCert_crt hnd hmem _

theorem WriteCerts_key {rc : RouterConfig} {d : Dir} {ctx : String} {c : Certificate}
    (hnd : ((certWrites rc).map Prod.fst).Nodup) (hmem : (ctx, c) ∈ certWrites rc) :
    WriteCerts rc d (ctx ++ ".key") = some { contents := c.key, mode := 0o600 } :=
  foldl_writeCert_key hnd hmem _

theorem certWrites_platform {rc : RouterConfig} {c : Certificate}
    (h : rc.platformCertificate = some c) : ("platform", c) ∈ certWrites rc := by
  simp [certWrites, h]

theorem certWrites_domain {rc : RouterConfig} {a : AppConfig} {dom : String} {c : Certificate}
    (ha : a ∈ rc.appConfigs) (hd : (dom, some c) ∈ a.certificates) :
    (dom, c) ∈ certWrites rc := by
  rw [certWrites, List.mem_append]
  right
  rw [List.mem_flatMap]
  refine ⟨a, ha, ?_⟩
  rw [List.mem_filterMap]
  exact ⟨(dom, some c), hd, rfl⟩

theorem WriteDHParam_other {rc : RouterConfig} {d : Dir} {n : String}
    (hn : n ≠ "dhparam.pem") : WriteDHParam rc d n = d n := by
  rw [WriteDHParam]
  split <;> simp [removeFile, writeFile, hn]

theorem WriteDHParam_dh_const (rc : RouterConfig) (d₁ d₂ : Dir) :
    WriteDHParam rc d₁ "dhparam.pem" = WriteDHParam rc d₂ "dhparam.pem" := by
  rw [WriteDHParam, WriteDHParam]
  split <;> simp [removeFile, writeFile]

/-! ### Claim theorems -/

/-- C1: during every reconciliation tick whose build succeeds with a
snapshot different from the last applied one, the apply steps attempted
are a prefix of WriteCerts, WriteDHParam, WriteConfig (renderer),
Reload, in that order; the first failing step ends the tick there; the
last applied snapshot becomes the new snapshot exactly when all four
steps succeed, and stays unchanged otherwise. -/
theorem tick_apply_order (known : RouterConfig) (env : TickEnv) (rc : RouterConfig)
    (hb : env.buildResult = .ok rc) (hne : rc ≠ known) :
    (tick known env).2 <+:
      [ApplyStep.writeCerts, ApplyStep.writeDHParam, ApplyStep.writeConfig, ApplyStep.reload] ∧
    ((env.writeCertsOk = true ∧ env.writeDHParamOk = true ∧ env.writeConfigOk = true ∧
        env.reloadOk = true) ↔ (tick known env).1 = rc) ∧
    (¬(env.writeCertsOk = true ∧ env.writeDHParamOk = true ∧ env.writeConfigOk = true ∧
        env.reloadOk = true) → (tick known env).1 = known) ∧
    (env.writeCertsOk = false → (tick known env).2 = [ApplyStep.writeCerts]) ∧
    (env.writeCertsOk = true ∧ env.writeDHParamOk = false →
      (tick known env).2 = [ApplyStep.writeCerts, ApplyStep.writeDHParam]) ∧
    (env.writeCertsOk = true ∧ env.writeDHParamOk = true ∧ env.writeConfigOk = false →
      (tick known env).2 = [ApplyStep.writeCerts, ApplyStep.writeDHParam, ApplyStep.writeConfig]) ∧
    (env.writeCertsOk = true ∧ env.writeDHParamOk = true ∧ env.writeConfigOk = true →
      (tick known env).2 =
        [ApplyStep.writeCerts, ApplyStep.writeDHParam, ApplyStep.writeConfig, ApplyStep.reload]) := by
  obtain ⟨br, c1, c2, c3, c4⟩ := env
  simp only at hb
  subst hb
  cases c1 <;> cases c2 <;> cases c3 <;> cases c4 <;>
    simp [tick, hne, Ne.symm hne, List.cons_prefix_cons, List.nil_prefix, List.prefix_refl]

/-- C1 witness: a tick seeing a changed snapshot with all steps
succeeding applies all four steps. -/
theorem tick_apply_order_witness : (tick rcEmpty envApply).1 = rcDH :=
  ((tick_apply_order rcEmpty envApply rcDH rfl (by decide)).2.1).mp ⟨rfl, rfl, rfl, rfl⟩

/-- C5: when the build reproduces the last applied snapshot exactly, the
tick attempts no apply step at all (no certificate, dhparam, or
configuration write, no reload signal) and the last applied snapshot is
untouched. -/
theorem tick_skip_when_equal (known : RouterConfig) (env : TickEnv) (rc : RouterConfig)
    (hb : env.buildResult = .ok rc) (heq : rc = known) :
    tick known env = (known, []) := by
  subst heq
  simp [tick, hb]

/-- C5 witness: a tick that rebuilds `rcEmpty` unchanged skips. -/
theorem tick_skip_when_equal_witness : tick rcEmpty envSkip = (rcEmpty, []) :=
  tick_skip_when_equal rcEmpty envSkip rcEmpty rfl rfl

/-- C6: running the certificate materializer (WriteCerts followed by
WriteDHParam) twice against the same snapshot and directory yields the
same directory contents as running it once. -/
theorem materialize_idempotent (rc : RouterConfig) (d : Dir) :
    materialize rc (materialize rc d) = materialize rc d := by
  funext n
  by_cases hdh : n = "dhparam.pem"
  · subst hdh
    exact WriteDHParam_dh_const rc _ _
  · show WriteDHParam rc (WriteCerts rc (materialize rc d)) n = materialize rc d n
    rw [WriteDHParam_other hdh]
    have hD : materialize rc d n = WriteCerts rc d n := by
      show WriteDHParam rc (WriteCerts rc d) n = _
      rw [WriteDHParam_other hdh]
    rw [hD, WriteCerts, WriteCerts]
    apply foldl_writeCert_congr
    cases hcf : isCertFile n with
    | true => simp [removeCertFiles, hcf]
    | false =>
      simp only [removeCertFiles, hcf, Bool.false_eq_true, if_false]
      rw [hD, WriteCerts_noncert hcf]

/-- C8: every successfully synthesized snapshot gives every app a
non-empty location list whose final element is the root `"/"` location
owned by the app itself, appended after cross-app linking, so every
explicit or linked location precedes it. -/
theorem build_locations_root (cl : Cluster) (services : List Service)
    (pcs dhs : Option Secret) (rc : RouterConfig) (h : build cl services pcs dhs = .ok rc) :
    ∀ a ∈ rc.appConfigs, a.locations ≠ [] ∧
      a.locations.getLast? = some { app := a.name, path := "/" } ∧
      ∃ pre, a.locations = pre ++ [{ app := a.name, path := "/" }] := by
  obtain ⟨apps, linked, _, _, hrc⟩ := build_inv h
  intro a ha
  rw [hrc] at ha
  obtain ⟨b, _, rfl⟩ := addRootLocations_mem ha
  refine ⟨by simp, ?_, ⟨b.locations, rfl⟩⟩
  exact List.getLast?_concat _

/-- C8 witness: the snapshot built from the `controller` service has one
app whose locations end with the root location. -/
theorem build_locations_root_witness :
    appCtl.locations ≠ [] ∧
    appCtl.locations.getLast? = some { app := appCtl.name, path := "/" } ∧
    ∃ pre, appCtl.locations = pre ++ [{ app := appCtl.name, path := "/" }] :=
  build_locations_root clReady [svcCtl] none none rcCtl rfl appCtl (by simp [rcCtl])

/-- C9: a bare domain (no dot) of any synthesized app is always bound to
the snapshot's platform certificate (possibly absent), whatever
certificate mappings the app's annotations declare. -/
theorem bare_domain_platform_cert (cl : Cluster) (svc : Service) (rc : RouterConfig)
    (dom : String) (app : AppConfig) (hdom : dom ∈ svc.bound.domains)
    (hbare : containsDot dom = false) (h : buildAppConfig cl svc rc = .ok (some app)) :
    alistLookup dom app.certificates = some rc.platformCertificate := by
  obtain ⟨certs, eps, hcerts, _, hcertseq, _, _, _⟩ := buildAppConfig_inv h
  rw [hcertseq]
  exact resolveCerts_lookup_bare hbare hdom hcerts

/-- C9 witness: the bare domain `web` is bound to the platform
certificate although the app maps that very domain to another alias. -/
theorem bare_domain_platform_cert_witness :
    alistLookup "web" appBare.certificates = some rcPlat.platformCertificate :=
  bare_domain_platform_cert clReady svcBare rcPlat "web" appBare (by simp [svcBare])
    rfl rfl

/-- C4 counterexample: an endpoints object whose first subset has no
ready address but whose second subset does yields an app marked
unavailable, refuting "available iff at least one ready address in any
subset". -/
theorem available_any_subset_counterexample :
    buildAppConfig clTwo svcApi rcEmpty = .ok (some appApi) ∧
    appApi.available = false ∧
    clTwo.getEndpoints svcApi.name svcApi.ns = .ok epsTwo ∧
    (epsTwo.subsets.any fun s => !s.addresses.isEmpty) = true :=
  ⟨rfl, rfl, rfl, rfl⟩

/-- C4 amended: a synthesized app is available iff the endpoints object
sampled for its service has a non-empty subsets list whose FIRST subset
has at least one ready address (the code never looks at later
subsets). -/
theorem available_iff_first_subset (cl : Cluster) (svc : Service) (rc : RouterConfig)
    (app : AppConfig) (eps : Endpoints) (h : buildAppConfig cl svc rc = .ok (some app))
    (heps : cl.getEndpoints svc.name svc.ns = .ok eps) :
    app.available = true ↔ ∃ s ss, eps.subsets = s :: ss ∧ s.addresses ≠ [] := by
  obtain ⟨certs, eps', _, heps', _, _, havail, _⟩ := buildAppConfig_inv h
  rw [heps] at heps'
  have : eps = eps' := by injection heps'
  subst this
  rw [havail]
  cases hsub : eps.subsets with
  | nil => simp
  | cons s ss =>
    simp only [decide_eq_true_eq]
    constructor
    · intro hs
      exact ⟨s, ss, rfl, hs⟩
    · rintro ⟨s', ss', he, hs'⟩
      cases he
      exact hs'

/-- C4 amended witness: with a ready address in the first subset the
synthesized app is available. -/
theorem available_iff_first_subset_witness : appApiUp.available = true :=
  (available_iff_first_subset clReady svcApi rcEmpty appApiUp epsReady rfl rfl).mpr
    ⟨{ addresses := ["10.0.0.1"], notReadyAddresses := [] }, [], rfl, by simp⟩

/-- C3 counterexample: a secret fetch failing with a non-404 error for a
mapped FQDN domain aborts the whole synthesis with a fetch error instead
of degrading that domain to uncertificated. -/
theorem tls_fetch_failure_counterexample :
    containsDot "a.example.com" = true ∧
    alistLookup "a.example.com" svcMapped.bound.certMappings = some "acert" ∧
    clFail.getSecret ("acert" ++ "-cert") svcMapped.ns = .fetchFailure ∧
    buildAppConfig clFail svcMapped rcEmpty = .error .fetchError ∧
    build clFail [svcMapped] none none = .error .fetchError :=
  ⟨rfl, rfl, rfl, rfl, rfl⟩

/-- C3 amended: for an FQDN domain with a certificate mapping, a missing
(404) secret leaves the domain entirely unbound and a found secret
lacking its cert or key entry binds it to a nil certificate — both
degrade to uncertificated without aborting; and when no mapped secret
fetch fails and the endpoints fetch succeeds, `buildAppConfig` always
succeeds.  (A fetch failure other than not-found, by contrast, aborts
the tick — see the counterexample.) -/
theorem tls_degrade_amended :
    (∀ (cl : Cluster) (svc : Service) (rc : RouterConfig) (dom mp : String) (app : AppConfig),
      dom ∈ svc.bound.domains → containsDot dom = true →
      alistLookup dom svc.bound.certMappings = some mp →
      cl.getSecret (mp ++ "-cert") svc.ns = .notFound →
      buildAppConfig cl svc rc = .ok (some app) →
      alistLookup dom app.certificates = none) ∧
    (∀ (cl : Cluster) (svc : Service) (rc : RouterConfig) (dom mp : String) (s : Secret)
        (app : AppConfig),
      dom ∈ svc.bound.domains → containsDot dom = true →
      alistLookup dom svc.bound.certMappings = some mp →
      cl.getSecret (mp ++ "-cert") svc.ns = .found s →
      buildCertificate s = none →
      buildAppConfig cl svc rc = .ok (some app) →
      alistLookup dom app.certificates = some none) ∧
    (∀ (cl : Cluster) (svc : Service) (rc : RouterConfig),
      (∀ d ∈ svc.bound.domains, containsDot d = true → ∀ mp,
        alistLookup d svc.bound.certMappings = some mp →
        cl.getSecret (mp ++ "-cert") svc.ns ≠ .fetchFailure) →
      (∃ eps, cl.getEndpoints svc.name svc.ns = .ok eps) →
      ∃ r, buildAppConfig cl svc rc = .ok r) := by
  refine ⟨?_, ?_, ?_⟩
  · intro cl svc rc dom mp app hdom hfq hmp hsec h
    obtain ⟨certs, eps, hcerts, _, hcertseq, _, _, _⟩ := buildAppConfig_inv h
    rw [hcertseq]
    rw [resolveCerts_lookup_notFound hfq hmp hsec hdom hcerts]
    rfl
  · intro cl svc rc dom mp s app hdom hfq hmp hsec hnil h
    obtain ⟨certs, eps, hcerts, _, hcertseq, _, _, _⟩ := buildAppConfig_inv h
    rw [hcertseq]
    rw [resolveCerts_lookup_found hfq hmp hsec hdom hcerts, hnil]
  · intro cl svc rc hsafe heps
    exact buildAppConfig_total hsafe heps

/-- C3 amended witness: the missing `mm-cert` secret leaves
`m.example.com` unbound, the key-less `nn-cert` secret binds
`n.example.com` to nil, and the degraded synthesis still succeeds. -/
theorem tls_degrade_amended_witness :
    alistLookup "m.example.com" appTLS.certificates = none ∧
    alistLookup "n.example.com" appTLS.certificates = some none ∧
    ∃ r, buildAppConfig clTLS svcTLS rcEmpty = .ok r :=
  ⟨tls_degrade_amended.1 clTLS svcTLS rcEmpty "m.example.com" "mm" appTLS
      (by simp [svcTLS]) rfl rfl rfl rfl,
   tls_degrade_amended.2.1 clTLS svcTLS rcEmpty "n.example.com" "nn" secNoKey appTLS
      (by simp [svcTLS]) rfl rfl rfl rfl rfl,
   tls_degrade_amended.2.2 clTLS svcTLS rcEmpty
      (by
        intro d hd hfq mp hmp
        simp only [svcTLS, List.mem_cons, List.not_mem_nil, or_false] at hd
        rcases hd with rfl | rfl
        · have h2 : alistLookup "m.example.com" svcTLS.bound.certMappings = some "mm" := by
            decide
          rw [h2] at hmp
          obtain rfl : "mm" = mp := Option.some.inj hmp
          decide
        · have h2 : alistLookup "n.example.com" svcTLS.bound.certMappings = some "nn" := by
            decide
          rw [h2] at hmp
          obtain rfl : "nn" = mp := Option.some.inj hmp
          decide)
      ⟨epsReady, rfl⟩⟩

/-- C2 counterexample: an app whose non-empty ProxyDomain references a
domain nobody owns, but whose ProxyLocations list is empty, does NOT
abort synthesis — a snapshot is produced, refuting the claim as
stated. -/
theorem dangling_proxyDomain_counterexample :
    build clReady [svcDangling] none none = .ok rcDangling ∧
    (rcDangling.appConfigs.any fun a => a.proxyDomain == "missing.example.com") = true ∧
    (rcDangling.appConfigs.all fun a => !(memStr "missing.example.com" a.domains)) = true :=
  ⟨rfl, rfl, rfl⟩

/-- C2 amended: when some synthesized app has BOTH a non-empty
ProxyDomain and a non-empty ProxyLocations list referencing a domain no
app owns, synthesis fails with a ConfigError naming such a dangling
referenced domain, and no snapshot is produced. -/
theorem dangling_proxyDomain_amended (cl : Cluster) (services : List Service)
    (pcs dhs : Option Secret) (apps : List AppConfig) (b : AppConfig) (D : String)
    (happs : buildApps cl (buildRouterConfig pcs dhs) services = .ok apps)
    (hb : b ∈ apps) (hD : b.proxyDomain = D) (hne : D ≠ "") (hlocs : b.proxyLocations ≠ [])
    (hun : ∀ c ∈ apps, D ∉ c.domains) :
    ∃ D', build cl services pcs dhs = .error (.configError D') ∧
      (∃ b' ∈ apps, b'.proxyDomain = D' ∧ b'.proxyLocations ≠ []) ∧
      ∀ c ∈ apps, D' ∉ c.domains := by
  subst hD
  have hunm : ∀ c ∈ apps, memStr b.proxyDomain c.domains = false := by
    intro c hc
    cases hm : memStr b.proxyDomain c.domains with
    | false => rfl
    | true => exact absurd (memStr_iff.mp hm) (hun c hc)
  obtain ⟨i, hget⟩ := List.mem_iff_get?.mp hb
  have hlt : i < apps.length := (List.get?_eq_some.mp hget).fst
  obtain ⟨e, he⟩ :=
    linkLocationsAux_dangling hne hlocs hunm
      (show apps.map skel = apps.map skel from rfl) (List.mem_range.mpr hlt) hget
  obtain ⟨D', heD, hex, hunD⟩ :=
    linkLocationsAux_error_inv (show apps.map skel = apps.map skel from rfl) he
  subst heD
  refine ⟨D', build_linkErr happs he, hex, ?_⟩
  intro c hc hmem
  have := hunD c hc
  rw [memStr_iff.mpr hmem] at this
  cases this

/-- C2 amended witness: a dangling ProxyDomain with a non-empty
ProxyLocations list makes the build fail with a ConfigError naming a
dangling domain. -/
theorem dangling_proxyDomain_amended_witness :
    ∃ D', build clReady [svcBorrower] none none = .error (.configError D') ∧
      (∃ b' ∈ [appBorrower], b'.proxyDomain = D' ∧ b'.proxyLocations ≠ []) ∧
      ∀ c ∈ [appBorrower], D' ∉ c.domains :=
  dangling_proxyDomain_amended clReady [svcBorrower] none none [appBorrower] appBorrower
    "gone.example.com" rfl (List.mem_singleton.mpr rfl) rfl (by decide) (by decide)
    (by decide)

/-- C7: WriteCerts deletes every existing `*.crt`/`*.key` file and then
writes exactly one `<name>.crt`/`<name>.key` pair per bound certificate
— the platform certificate under the fixed name `platform`, each
per-domain certificate under its domain — certs at normal permissions
(0644) and keys at owner-only permissions (0600); files not matching the
cert globs are untouched.  (The bound contexts are assumed pairwise
distinct, which is what "exactly one pair per bound certificate"
presupposes.) -/
theorem WriteCerts_spec (rc : RouterConfig) (d : Dir)
    (hnd : ((certWrites rc).map Prod.fst).Nodup) :
    (∀ ctx c, (ctx, c) ∈ certWrites rc →
      WriteCerts rc d (ctx ++ ".crt") = some { contents := c.cert, mode := 0o644 } ∧
      WriteCerts rc d (ctx ++ ".key") = some { contents := c.key, mode := 0o600 }) ∧
    (∀ n, isCertFile n = true →
      (∀ p ∈ certWrites rc, n ≠ p.1 ++ ".crt" ∧ n ≠ p.1 ++ ".key") →
      WriteCerts rc d n = none) ∧
    (∀ n, isCertFile n = false → WriteCerts rc d n = d n) ∧
    (∀ c, rc.platformCertificate = some c → ("platform", c) ∈ certWrites rc) ∧
    (∀ a ∈ rc.appConfigs, ∀ dom c, (dom, some c) ∈ a.certificates →
      (dom, c) ∈ certWrites rc) :=
  ⟨fun _ c hm => ⟨WriteCerts_crt hnd hm, WriteCerts_key hnd hm⟩,
   fun _ hc hnt => WriteCerts_stale hc hnt,
   fun _ hn => WriteCerts_noncert hn,
   fun _ h => certWrites_platform h,
   fun _ ha _ _ hd => certWrites_domain ha hd⟩

/-- C7 witness: against a directory holding a stale certificate and an
unrelated file, WriteCerts writes the platform pair and the per-domain
pair at the documented permissions, deletes the stale certificate, and
leaves the unrelated file alone. -/
theorem WriteCerts_spec_witness :
    WriteCerts rcCerts dirStale ("platform" ++ ".crt") =
      some { contents := "PC", mode := 0o644 } ∧
    WriteCerts rcCerts dirStale ("d.example.com" ++ ".key") =
      some { contents := "DK", mode := 0o600 } ∧
    WriteCerts rcCerts dirStale "stale.crt" = none ∧
    WriteCerts rcCerts dirStale "readme.txt" = dirStale "readme.txt" :=
  ⟨((WriteCerts_spec rcCerts dirStale (by decide)).1 "platform" certPlat (by decide)).1,
   ((WriteCerts_spec rcCerts dirStale (by decide)).1 "d.example.com" certD (by decide)).2,
   (WriteCerts_spec rcCerts dirStale (by decide)).2.1 "stale.crt" (by decide) (by decide),
   (WriteCerts_spec rcCerts dirStale (by decide)).2.2.1 "readme.txt" (by decide)⟩

/-- C10: a snapshot's per-domain certificate map can bind a domain to a
nil certificate — a bare domain when no platform certificate exists, or
an FQDN whose secret exists but lacks a `tls.crt`/`tls.key` entry — and
WriteCerts writes files only for non-nil bindings, so a nil-bound domain
is present in the map yet yields no `.crt`/`.key` file on disk. -/
theorem nil_certificate_binding :
    (∀ (rc : RouterConfig) (d : Dir) (a : AppConfig) (dom : String),
      a ∈ rc.appConfigs → (dom, (none : Option Certificate)) ∈ a.certificates →
      (∀ p ∈ certWrites rc, p.1 ≠ dom) →
      WriteCerts rc d (dom ++ ".crt") = none ∧ WriteCerts rc d (dom ++ ".key") = none) ∧
    (∀ (cl : Cluster) (svc : Service) (rc : RouterConfig) (dom : String) (app : AppConfig),
      rc.platformCertificate = none → dom ∈ svc.bound.domains → containsDot dom = false →
      buildAppConfig cl svc rc = .ok (some app) →
      alistLookup dom app.certificates = some none) ∧
    (∀ (cl : Cluster) (svc : Service) (rc : RouterConfig) (dom mp : String) (s : Secret)
        (app : AppConfig),
      dom ∈ svc.bound.domains → containsDot dom = true →
      alistLookup dom svc.bound.certMappings = some mp →
      cl.getSecret (mp ++ "-cert") svc.ns = .found s → buildCertificate s = none →
      buildAppConfig cl svc rc = .ok (some app) →
      alistLookup dom app.certificates = some none) := by
  refine ⟨?_, ?_, ?_⟩
  · intro rc d a dom _ _ hfresh
    constructor
    · refine WriteCerts_stale (isCertFile_crt dom) ?_
      intro p hp
      refine ⟨fun he => hfresh p hp (crt_append_inj he).symm, crt_ne_key dom p.1⟩
    · refine WriteCerts_stale (isCertFile_key dom) ?_
      intro p hp
      exact ⟨(crt_ne_key p.1 dom).symm, fun he => hfresh p hp (key_append_inj he).symm⟩
  · intro cl svc rc dom app hplat hdom hbare h
    obtain ⟨certs, eps, hcerts, _, hcertseq, _, _, _⟩ := buildAppConfig_inv h
    rw [hcertseq, resolveCerts_lookup_bare hbare hdom hcerts, hplat]
  · intro cl svc rc dom mp s app hdom hfq hmp hsec hnil h
    obtain ⟨certs, eps, hcerts, _, hcertseq, _, _, _⟩ := buildAppConfig_inv h
    rw [hcertseq, resolveCerts_lookup_found hfq hmp hsec hdom hcerts, hnil]

/-- C10 witness: the nil-bound domain `nil.example.com` is in the map of
`rcCerts` yet produces no files; a bare domain with no platform
certificate and an FQDN with a key-less secret both synthesize nil
bindings. -/
theorem nil_certificate_binding_witness :
    (WriteCerts rcCerts dirStale ("nil.example.com" ++ ".crt") = none ∧
      WriteCerts rcCerts dirStale ("nil.example.com" ++ ".key") = none) ∧
    alistLookup "api" appApiUp.certificates = some none ∧
    alistLookup "n.example.com" appTLS.certificates = some none :=
  ⟨nil_certificate_binding.1 rcCerts dirStale
      { name := "x", domains := ["d.example.com"], certMappings := []
        certificates := [("d.example.com", some certD), ("nil.example.com", none)]
        available := true, proxyDomain := "", proxyLocations := []
        locations := [], serviceIP := "" }
      "nil.example.com" (by decide) (by decide) (by decide),
   nil_certificate_binding.2.1 clReady svcApi rcEmpty "api" appApiUp rfl
      (by simp [svcApi]) rfl rfl,
   nil_certificate_binding.2.2 clTLS svcTLS rcEmpty "n.example.com" "nn" secNoKey appTLS
      (by simp [svcTLS]) rfl rfl rfl rfl rfl⟩

end RouterModel
